import Mathlib

/-!
Verification development for the text-layout primitives of this repository:
the width table (`RuneWidth`/`StringWidth`), the escape-aware wrapper
(`cellbuf.Wrap` and its helpers `addSpace`/`addWord`/`addNewline`/`addBreak`),
and the damage model (`CellDamage`/`RectDamage`/`ScreenDamage` with `Bounds`).

Byte buffers of the Go code are represented as `List Char` (one entry per
decoded character); the Go `int` fields that only ever accumulate
non-negative widths and lengths (`curWidth`, `wordLen`, token widths) are
`Nat`, while the user-supplied `limit` stays `Int` as in Go.
-/

namespace Spec2Proof

/-! ## Width table -/

/-- Modelled from the spec: the width table (`RuneWidth`) is missing from the
excerpted sources (only its tests appear); per the spec it maps control
characters, combining marks, zero-width joiners, variation selectors and other
zero-width format characters to 0, East-Asian Wide/Fullwidth characters to 2,
and everything else to 1 (ambiguous resolves to narrow by default).  The
East-Asian Wide ranges below are the subset of the pinned Unicode East Asian
Width data that covers the code points the spec and tests exercise. -/
def RuneWidth (c : Char) : Nat :=
  let r := c.toNat
  if r < 0x20 then 0
  else if 0x7f ≤ r && r ≤ 0x9f then 0
  else if 0x300 ≤ r && r ≤ 0x36f then 0            -- combining marks
  else if 0x200b ≤ r && r ≤ 0x200f then 0          -- zero-width chars, ZWJ
  else if 0x2028 ≤ r && r ≤ 0x202e then 0          -- line/para separators, embeds
  else if 0xfe00 ≤ r && r ≤ 0xfe0f then 0          -- variation selectors
  else if r = 0xfeff then 0                         -- zero-width no-break space
  else if 0x1100 ≤ r && r ≤ 0x115f then 2          -- Hangul Jamo
  else if 0x3000 ≤ r && r ≤ 0x303e then 2          -- CJK symbols
  else if 0x3041 ≤ r && r ≤ 0x33ff then 2          -- kana, CJK compat
  else if 0x4e00 ≤ r && r ≤ 0x9fff then 2          -- CJK unified ideographs
  else if 0xac00 ≤ r && r ≤ 0xd7a3 then 2          -- Hangul syllables
  else if 0xff00 ≤ r && r ≤ 0xff60 then 2          -- fullwidth forms
  else if 0x1f300 ≤ r && r ≤ 0x1f320 then 2        -- emoji (East Asian Wide)
  else if 0x1f32d ≤ r && r ≤ 0x1f335 then 2
  else if 0x1f337 ≤ r && r ≤ 0x1f37c then 2
  else if 0x1f37e ≤ r && r ≤ 0x1f393 then 2
  else if 0x1f3a0 ≤ r && r ≤ 0x1f3ca then 2
  else if 0x1f3cf ≤ r && r ≤ 0x1f3d3 then 2
  else if 0x1f3e0 ≤ r && r ≤ 0x1f3f0 then 2
  else if r = 0x1f3f4 then 2
  else if 0x1f3f8 ≤ r && r ≤ 0x1f43e then 2
  else if r = 0x1f440 then 2
  else if 0x1f442 ≤ r && r ≤ 0x1f4fc then 2
  else if 0x1f4ff ≤ r && r ≤ 0x1f53d then 2
  else if 0x1f54b ≤ r && r ≤ 0x1f567 then 2
  else if 0x1f5fb ≤ r && r ≤ 0x1f64f then 2
  else if 0x1f680 ≤ r && r ≤ 0x1f6c5 then 2
  else if 0x1f900 ≤ r && r ≤ 0x1f9ff then 2
  else 1

/-- Modelled from the spec: `StringWidth` (implementation absent from the
excerpted sources, only its tests appear) decodes the input into runes and is
strictly additive — it sums `RuneWidth` over the decoded runes with no
clustering of ZWJ-joined emoji sequences.  Lean strings are always valid
Unicode, so the narrow-placeholder rule for malformed encodings is vacuous
here. -/
def StringWidth (s : String) : Nat :=
  (s.data.map RuneWidth).sum

/-! ## Style and Link state (external collaborators of the wrapper) -/

/-- Modelled from the spec: `Style` is the active text-attribute state
accumulated from attribute-setting (SGR) sequences; it exposes emptiness and a
canonical sequence reproducing the current attributes. -/
structure Style where
  params : List Nat
  deriving DecidableEq, Repr

/-- Whether no attributes are set. -/
def Style.Empty (s : Style) : Bool :=
  s.params.isEmpty

/-- The escape character. -/
def escChar : Char := Char.ofNat 0x1b

/-- Modelled from the spec: the fixed canonical sequence that resets all
attributes (CSI `m`). -/
def ResetStyle : List Char := [escChar, '[', 'm']

/-- Modelled from the spec: the canonical sequence reproducing the current
attributes — a CSI `m` sequence listing the accumulated attribute codes. -/
def Style.Sequence (s : Style) : List Char :=
  [escChar, '['] ++ List.intercalate [';'] (s.params.map (fun p => Nat.toDigits 10 p)) ++ ['m']

/-- Modelled from the spec: the external attribute parser — given the
parameter list of a recognized attribute-setting sequence it updates the
Style: parameter 0 resets all attributes, any other code is accumulated. -/
def ReadStyle (ps : List Nat) (s : Style) : Style :=
  ⟨ps.foldl (fun acc p => if p = 0 then [] else acc ++ [p]) s.params⟩

/-- Modelled from the spec: `Link` is the active hyperlink (URL + params),
exposing emptiness, an opening sequence and a closing sequence. -/
structure Link where
  URL : List Char
  Params : List Char
  deriving DecidableEq, Repr

/-- Whether no hyperlink is open. -/
def Link.Empty (l : Link) : Bool :=
  l.URL.isEmpty && l.Params.isEmpty

/-- Modelled from the spec: the opening sequence of a hyperlink
(OSC 8 `;params;url` terminated by ST). -/
def SetHyperlink (url ps : List Char) : List Char :=
  [escChar, ']', '8', ';'] ++ ps ++ [';'] ++ url ++ [escChar, '\\']

/-- Modelled from the spec: the closing sequence of a hyperlink (OSC 8 with
empty URL and params). -/
def ResetHyperlink : List Char := SetHyperlink [] []

/-- Modelled from the spec: the external hyperlink parser — given the payload
of a recognized hyperlink-setting sequence it replaces the Link's URL and
parameters. -/
def ReadLink (ps url : List Char) (_ : Link) : Link :=
  ⟨url, ps⟩

/-! ## Tokens (output of the external sequence decoder) -/

/-- The decoder/parser classification of a decoded unit: a recognized
attribute-setting (SGR) sequence with its parameters, a recognized
hyperlink-setting (OSC 8) sequence with its payload, or anything else. -/
inductive CtrlKind where
  | sgr (params : List Nat)
  | osc8 (params url : List Char)
  | plain
  deriving DecidableEq, Repr

/-- Modelled from the spec: one decoded unit as returned by the external
sequence decoder — the consumed raw text and its display width (0 marks
control/escape data, positive marks a displayable cluster), together with the
parser's classification of a control sequence. -/
structure Token where
  seq : List Char
  width : Nat
  ctrl : CtrlKind
  deriving DecidableEq, Repr

/-- Go's `unicode.IsSpace` on the characters this model can see. -/
def isSpaceChar (c : Char) : Bool :=
  let r := c.toNat
  r = 0x20 || (0x9 ≤ r && r ≤ 0xd) || r = 0x85 || r = 0xa0 ||
  r = 0x1680 || (0x2000 ≤ r && r ≤ 0x200a) || r = 0x2028 || r = 0x2029 ||
  r = 0x202f || r = 0x205f || r = 0x3000

/-! ## The wrapper state and helpers (from `cellbuf/wrap.go`) -/

/-- The configuration of one `StyleFormatter.Wrap` call: the `Limit`,
`PreserveSpace` and `Breakpoints` fields of the formatter. -/
structure Config where
  limit : Int
  preserveSpace : Bool
  breakpoints : List Char
  deriving DecidableEq, Repr

/-- The mutable state of one `Wrap` call: the output buffer `buf`, the current
word buffer `word` with its accumulated display width `wordLen`, the pending
space buffer `space`, the current line's accumulated width `curWidth`, and the
running `Style`/`Link` state of the formatter. -/
structure WrapState where
  buf : List Char
  word : List Char
  space : List Char
  curWidth : Nat
  wordLen : Nat
  style : Style
  link : Link
  deriving DecidableEq, Repr

/-- `addSpace` from `wrap.go`: commit the pending space run to the line. -/
def addSpace (st : WrapState) : WrapState :=
  { st with curWidth := st.curWidth + st.space.length,
            buf := st.buf ++ st.space,
            space := [] }

/-- `addWord` from `wrap.go`: if the word buffer is non-empty, commit the
pending space and then the word to the line. -/
def addWord (st : WrapState) : WrapState :=
  if st.word.isEmpty then st
  else
    let st := addSpace st
    { st with curWidth := st.curWidth + st.wordLen,
              buf := st.buf ++ st.word,
              word := [],
              wordLen := 0 }

/-- `addNewline` from `wrap.go`: close any open hyperlink and style, write the
line break, reset the line width, reapply the style and hyperlink, and drop
the pending space. -/
def addNewline (st : WrapState) : WrapState :=
  let b := st.buf
  let b := if st.link.Empty then b else b ++ ResetHyperlink
  let b := if st.style.Empty then b else b ++ ResetStyle
  let b := b ++ ['\n']
  let b := if st.style.Empty then b else b ++ st.style.Sequence
  let b := if st.link.Empty then b else b ++ SetHyperlink st.link.URL st.link.Params
  { st with buf := b, curWidth := 0, space := [] }

/-- `addBreak` from `wrap.go`: commit the pending space, then either keep the
breakpoint in the word (when the line cannot fit breakpoint, word and line
width) or commit the word and write the breakpoint straight to the line. -/
def addBreak (cfg : Config) (st : WrapState) (seq : List Char) (width : Nat) : WrapState :=
  let st := addSpace st
  if (st.curWidth : Int) + st.wordLen + width ≥ cfg.limit then
    { st with word := st.word ++ seq, wordLen := st.wordLen + width }
  else
    let st := addWord st
    { st with buf := st.buf ++ seq, curWidth := st.curWidth + width }

/-- The `default` arm of the text dispatch in `wrap.go`: maybe break an
overlong line, maybe hard-wrap an overlong word, append the token to the word,
and break the line when the projected width exceeds the limit. -/
def stepText (cfg : Config) (st : WrapState) (seq : List Char) (width : Nat) : WrapState :=
  let st := if (st.curWidth : Int) > cfg.limit then addNewline st else st
  let st := if (st.wordLen : Int) + width ≥ cfg.limit then addWord st else st
  let st := { st with word := st.word ++ seq, wordLen := st.wordLen + width }
  if (st.curWidth : Int) + st.wordLen + st.space.length > cfg.limit then addNewline st else st

/-- The same pipeline as `stepText`, additionally counting how many line
breaks (`addNewline` calls) the step performs. -/
def stepTextB (cfg : Config) (st : WrapState) (seq : List Char) (width : Nat) :
    WrapState × Nat :=
  let p := if (st.curWidth : Int) > cfg.limit then (addNewline st, 1) else (st, 0)
  let st := p.1
  let st := if (st.wordLen : Int) + width ≥ cfg.limit then addWord st else st
  let st := { st with word := st.word ++ seq, wordLen := st.wordLen + width }
  if (st.curWidth : Int) + st.wordLen + st.space.length > cfg.limit then
    (addNewline st, p.2 + 1)
  else (st, p.2)

/-- The end-of-line whitespace-retention decision as the spec describes it:
if the line width plus the pending space exceeds the limit, discard the space
and reset the line width to 0, else keep the space (write it to the output);
either way clear the space buffer.  `wrap.go` spells this block out twice
(at a line-feed token with no pending word, and after the input is
exhausted); both copies are proved equal to this function. -/
def retainSpace (cfg : Config) (st : WrapState) : WrapState :=
  if (st.curWidth : Int) + st.space.length > cfg.limit then
    { st with curWidth := 0, space := [] }
  else
    { st with buf := st.buf ++ st.space, space := [] }

/-- The body of the decode loop in `StyleFormatter.Wrap`, dispatching on one
decoded token exactly as `wrap.go` does. -/
def processToken (cfg : Config) (st : WrapState) (t : Token) : WrapState :=
  if t.width = 0 then
    -- Control codes and escape sequences
    let st :=
      match t.ctrl with
      | .sgr ps => { st with style := ReadStyle ps st.style }
      | .osc8 ps url => { st with link := ReadLink ps url st.link }
      | .plain =>
        if t.seq = ['\n'] then
          let st :=
            if st.wordLen = 0 then
              if (st.curWidth : Int) + st.space.length > cfg.limit then
                { st with curWidth := 0, space := [] }
              else
                -- preserve whitespaces
                { st with buf := st.buf ++ st.space, space := [] }
            else st
          addNewline (addWord st)
        else st
    { st with word := st.word ++ t.seq }
  else
    if t.seq.all isSpaceChar then
      let st := addWord st
      if cfg.preserveSpace || st.curWidth ≠ 0 then
        { st with space := st.space ++ t.seq }
      else st
    else if t.seq = ['-'] then
      addBreak cfg st t.seq t.width
    else
      match t.seq with
      | [c] =>
        if cfg.breakpoints.contains c then addBreak cfg st t.seq t.width
        else stepText cfg st t.seq t.width
      | _ => stepText cfg st t.seq t.width

/-- The decode loop of `StyleFormatter.Wrap` over an already-decoded token
stream. -/
def wrapLoop (cfg : Config) (st : WrapState) (ts : List Token) : WrapState :=
  ts.foldl (processToken cfg) st

/-- The code after the decode loop in `StyleFormatter.Wrap`: apply the
whitespace-retention decision when no word is pending, then flush the
remaining word. -/
def finalize (cfg : Config) (st : WrapState) : WrapState :=
  let st :=
    if st.wordLen = 0 then
      if (st.curWidth : Int) + st.space.length > cfg.limit then
        { st with curWidth := 0, space := [] }
      else
        -- preserve whitespaces
        { st with buf := st.buf ++ st.space, space := [] }
    else st
  addWord st

/-- The initial state of one `Wrap` call (empty buffers, zero-valued
`Style`/`Link` formatter fields). -/
def initState : WrapState :=
  ⟨[], [], [], 0, 0, ⟨[]⟩, ⟨[], []⟩⟩

/-- `StyleFormatter.Wrap` on an already-decoded token stream (the part of the
function after the length/limit guards): run the loop and the final flush, and
return the output buffer. -/
def WrapTokens (cfg : Config) (ts : List Token) : List Char :=
  (finalize cfg (wrapLoop cfg initState ts)).buf

/-- Modelled from the spec: the external sequence decoder restricted to plain
text — each character is one decoded unit whose display width is its
`RuneWidth` (width 0 marks control data, e.g. the line feed). -/
def decodeChar (c : Char) : Token :=
  ⟨[c], RuneWidth c, .plain⟩

/-- `Wrap(s, limit, breakpoints)` from `wrap.go`: empty input yields empty
output, a limit below one passes the input through, and otherwise the token
stream is wrapped with the default formatter configuration. -/
def Wrap (s : String) (limit : Int) (breakpoints : String) : String :=
  if s.data.isEmpty then ""
  else if limit < 1 then s
  else ⟨WrapTokens ⟨limit, false, breakpoints.data⟩ (s.data.map decodeChar)⟩

/-! ## Damage model (from `vt/damage.go`) -/

/-- Modelled from the spec: the external geometry value — top-left (x, y) and
(width, height). -/
structure Rectangle where
  x : Int
  y : Int
  width : Int
  height : Int
  deriving DecidableEq, Repr

/-- Modelled from the spec: the rectangle constructor of the external geometry
module. -/
def Rect (x y w h : Int) : Rectangle := ⟨x, y, w, h⟩

/-- Modelled from the spec: a position (x, y) of the external geometry
module. -/
structure Position where
  X : Int
  Y : Int
  deriving DecidableEq, Repr

/-- `CellDamage` from `vt/damage.go`: a damaged cell. -/
abbrev CellDamage := Position

/-- `CellDamage.Bounds` from `vt/damage.go`: the 1x1 rectangle at (x, y). -/
def CellDamage.Bounds (d : CellDamage) : Rectangle :=
  Rect d.X d.Y 1 1

/-- `RectDamage` from `vt/damage.go`: a damaged rectangle. -/
abbrev RectDamage := Rectangle

/-- `RectDamage.Bounds` from `vt/damage.go`: the rectangle itself,
unchanged. -/
def RectDamage.Bounds (d : RectDamage) : Rectangle := d

/-- `ScreenDamage` from `vt/damage.go`: a damaged screen. -/
structure ScreenDamage where
  Width : Int
  Height : Int
  deriving DecidableEq, Repr

/-- `ScreenDamage.Bounds` from `vt/damage.go`: the rectangle
(0, 0, width, height). -/
def ScreenDamage.Bounds (d : ScreenDamage) : Rectangle :=
  Rect 0 0 d.Width d.Height

/-! ## Helper definitions -/

/-- `SeqIn xs l`: the characters `xs` occur contiguously (unbroken) somewhere
in `l`. -/
def SeqIn (xs l : List Char) : Prop :=
  ∃ u v, l = u ++ xs ++ v

/-- The byte sequence `addNewline` inserts at a line break, given the active
style and link state. -/
def breakSeq (st : WrapState) : List Char :=
  (if st.link.Empty then [] else ResetHyperlink) ++
  (if st.style.Empty then [] else ResetStyle) ++ ['\n'] ++
  (if st.style.Empty then [] else st.style.Sequence) ++
  (if st.link.Empty then [] else SetHyperlink st.link.URL st.link.Params)

/-- The projected line width: current line width plus pending word width plus
pending space width. -/
def lineSum (st : WrapState) : Int :=
  (st.curWidth : Int) + st.wordLen + st.space.length

/-- `HoldsIn xs st`: the characters `xs` occur contiguously in the output
buffer or in the pending word buffer. -/
def HoldsIn (xs : List Char) (st : WrapState) : Prop :=
  SeqIn xs st.buf ∨ SeqIn xs st.word

/-! ## Helper lemmas -/

theorem seqIn_mono_r {xs l : List Char} (r : List Char) (h : SeqIn xs l) :
    SeqIn xs (l ++ r) := by
  obtain ⟨u, v, rfl⟩ := h
  exact ⟨u, v ++ r, by simp⟩

theorem seqIn_mono_l {xs r : List Char} (l : List Char) (h : SeqIn xs r) :
    SeqIn xs (l ++ r) := by
  obtain ⟨u, v, rfl⟩ := h
  exact ⟨l ++ u, v, by simp⟩

theorem seqIn_suffix (w xs : List Char) : SeqIn xs (w ++ xs) :=
  ⟨w, [], by simp⟩

theorem seqIn_of_nil {xs : List Char} (h : SeqIn xs []) (l : List Char) :
    SeqIn xs l := by
  obtain ⟨u, v, hv⟩ := h
  have hx : xs = [] := by
    rcases List.append_eq_nil.mp hv.symm with ⟨h1, _⟩
    exact (List.append_eq_nil.mp h1).2
  exact ⟨[], l, by simp [hx]⟩



theorem addNewline_buf (st : WrapState) :
    (addNewline st).buf = st.buf ++ breakSeq st := by
  unfold addNewline breakSeq
  cases hl : st.link.Empty <;> cases hs : st.style.Empty <;> simp [hl, hs]

theorem addNewline_word (st : WrapState) : (addNewline st).word = st.word := rfl

theorem addNewline_wordLen (st : WrapState) :
    (addNewline st).wordLen = st.wordLen := rfl

theorem addNewline_style (st : WrapState) : (addNewline st).style = st.style := rfl

theorem addNewline_link (st : WrapState) : (addNewline st).link = st.link := rfl

theorem addNewline_curWidth (st : WrapState) : (addNewline st).curWidth = 0 := rfl

theorem addWord_word (st : WrapState) : (addWord st).word = [] := by
  unfold addWord
  split
  · next h => simpa [List.isEmpty_iff] using h
  · rfl

theorem addWord_buf_of_ne (st : WrapState) (h : ¬st.word.isEmpty) :
    (addWord st).buf = st.buf ++ st.space ++ st.word := by
  unfold addWord addSpace
  simp [h]

theorem addSpace_buf (st : WrapState) :
    (addSpace st).buf = st.buf ++ st.space := rfl



theorem lineSum_addWord (st : WrapState) : lineSum (addWord st) = lineSum st := by
  unfold addWord addSpace lineSum
  split
  · rfl
  · simp
    ring

theorem lineSum_unfold (st : WrapState) :
    lineSum st = (st.curWidth : Int) + st.wordLen + st.space.length := rfl

theorem seqIn_word_addWord (st : WrapState) : SeqIn st.word (addWord st).buf := by
  unfold addWord
  split
  · next h =>
    have hw : st.word = [] := by simpa [List.isEmpty_iff] using h
    exact ⟨[], st.buf, by simp [hw]⟩
  · exact ⟨st.buf ++ st.space, [], by simp [addSpace]⟩

theorem stepText_eq_fst (cfg : Config) (st : WrapState) (seq : List Char) (w : Nat) :
    stepText cfg st seq w = (stepTextB cfg st seq w).1 := by
  simp only [stepText, stepTextB]
  by_cases c1 : (st.curWidth : Int) > cfg.limit <;> simp only [c1, if_true, if_false] <;>
    split <;> split <;> rfl

theorem stepTextB_breaks_iff (cfg : Config) (st : WrapState) (seq : List Char) (w : Nat) :
    0 < (stepTextB cfg st seq w).2 ↔ lineSum st + w > cfg.limit := by
  simp only [stepTextB]
  by_cases c1 : (st.curWidth : Int) > cfg.limit
  · have h1 : lineSum st + w > cfg.limit := by
      rw [lineSum_unfold]
      have hw : (0:Int) ≤ (w:Int) := Int.ofNat_nonneg w
      have h2 : (0:Int) ≤ (st.wordLen : Int) := Int.ofNat_nonneg _
      have h3 : (0:Int) ≤ (st.space.length : Int) := Int.ofNat_nonneg _
      omega
    simp only [c1, if_true]
    refine iff_of_true ?_ h1
    split <;> split <;> norm_num
  · simp only [c1, if_false]
    by_cases c2 : (st.wordLen : Int) + w ≥ cfg.limit <;> simp only [c2, if_true, if_false]
    · have e := lineSum_addWord st
      rw [lineSum_unfold, lineSum_unfold] at e
      split
      · next c3 =>
        refine iff_of_true (by norm_num) ?_
        rw [lineSum_unfold]
        push_cast at c3 ⊢
        omega
      · next c3 =>
        refine iff_of_false (by norm_num) ?_
        rw [lineSum_unfold]
        push_cast at c3 ⊢
        omega
    · split
      · next c3 =>
        refine iff_of_true (by norm_num) ?_
        rw [lineSum_unfold]
        push_cast at c3 ⊢
        omega
      · next c3 =>
        refine iff_of_false (by norm_num) ?_
        rw [lineSum_unfold]
        push_cast at c3 ⊢
        omega

theorem stepText_word_flush (cfg : Config) (st : WrapState) (seq : List Char) (w : Nat)
    (h : (st.wordLen : Int) + w ≥ cfg.limit) :
    (stepText cfg st seq w).word = seq ∧ SeqIn st.word (stepText cfg st seq w).buf := by
  simp only [stepText]
  by_cases c1 : (st.curWidth : Int) > cfg.limit <;>
    simp only [c1, if_true, if_false]
  · have hc : ((addNewline st).wordLen : Int) + w ≥ cfg.limit := by
      rw [addNewline_wordLen]; exact h
    rw [if_pos hc]
    refine ⟨?_, ?_⟩
    · split <;> simp [addNewline_word, addWord_word]
    · have h1 : SeqIn st.word (addWord (addNewline st)).buf := by
        have h2 := seqIn_word_addWord (addNewline st)
        rwa [addNewline_word] at h2
      split
      · rw [addNewline_buf]
        exact seqIn_mono_r _ h1
      · exact h1
  · rw [if_pos h]
    refine ⟨?_, ?_⟩
    · split <;> simp [addNewline_word, addWord_word]
    · have h1 : SeqIn st.word (addWord st).buf := seqIn_word_addWord st
      split
      · rw [addNewline_buf]
        exact seqIn_mono_r _ h1
      · exact h1

theorem stepText_word_append (cfg : Config) (st : WrapState) (seq : List Char) (w : Nat)
    (h : (st.wordLen : Int) + w < cfg.limit) :
    (stepText cfg st seq w).word = st.word ++ seq ∧
    (stepText cfg st seq w).wordLen = st.wordLen + w := by
  simp only [stepText]
  by_cases c1 : (st.curWidth : Int) > cfg.limit <;>
    simp only [c1, if_true, if_false]
  · have hc : ¬ (((addNewline st).wordLen : Int) + w ≥ cfg.limit) := by
      rw [addNewline_wordLen]; omega
    rw [if_neg hc]
    refine ⟨?_, ?_⟩
    · split <;> simp [addNewline_word]
    · split <;> simp [addNewline_wordLen]
  · rw [if_neg (show ¬ ((st.wordLen : Int) + w ≥ cfg.limit) by omega)]
    refine ⟨?_, ?_⟩
    · split <;> simp [addNewline_word]
    · split <;> simp [addNewline_wordLen]

theorem lf_word (cfg : Config) (st : WrapState) :
    (processToken cfg st ⟨['\n'], 0, .plain⟩).word = ['\n'] := by
  simp [processToken, addNewline_word, addWord_word]

theorem wrap_lf (limit : Int) (h : 1 ≤ limit) : Wrap "\n" limit "" = "\n\n" := by
  unfold Wrap
  rw [if_neg (by decide), if_neg (by omega)]
  have hn : ¬ ((0:Int) > limit) := by omega
  have hd : ("\n".data.map decodeChar) = [⟨['\n'], 0, .plain⟩] := by decide
  unfold WrapTokens wrapLoop
  rw [hd]
  simp [processToken, finalize, initState, addWord, addSpace, addNewline,
    Style.Empty, Link.Empty, hn]

theorem holds_addSpace {xs : List Char} (st : WrapState) (h : HoldsIn xs st) :
    HoldsIn xs (addSpace st) := by
  rcases h with h | h
  · exact Or.inl (seqIn_mono_r _ h)
  · exact Or.inr h

theorem holds_addWord {xs : List Char} (st : WrapState) (h : HoldsIn xs st) :
    HoldsIn xs (addWord st) := by
  unfold addWord
  split
  · exact h
  · rcases h with h | h
    · exact Or.inl (seqIn_mono_r _ (seqIn_mono_r _ h))
    · exact Or.inl (seqIn_mono_l _ h)

theorem holds_addNewline {xs : List Char} (st : WrapState) (h : HoldsIn xs st) :
    HoldsIn xs (addNewline st) := by
  rcases h with h | h
  · refine Or.inl ?_
    rw [addNewline_buf]
    exact seqIn_mono_r _ h
  · refine Or.inr ?_
    rw [addNewline_word]
    exact h

theorem seqIn_buf_addWord {xs : List Char} (st : WrapState) (h : HoldsIn xs st) :
    SeqIn xs (addWord st).buf := by
  unfold addWord
  split
  · next he =>
    rcases h with h | h
    · exact h
    · have hw : st.word = [] := by simpa [List.isEmpty_iff] using he
      rw [hw] at h
      exact seqIn_of_nil h _
  · rcases h with h | h
    · exact seqIn_mono_r _ (seqIn_mono_r _ h)
    · exact seqIn_mono_l _ h

theorem holds_addBreak {xs : List Char} (cfg : Config) (st : WrapState)
    (seq : List Char) (w : Nat) (h : HoldsIn xs st) :
    HoldsIn xs (addBreak cfg st seq w) := by
  simp only [addBreak]
  split
  · rcases holds_addSpace st h with h1 | h1
    · exact Or.inl h1
    · exact Or.inr (seqIn_mono_r _ h1)
  · rcases holds_addWord _ (holds_addSpace st h) with h1 | h1
    · exact Or.inl (seqIn_mono_r _ h1)
    · exact Or.inr h1

theorem holds_stepText {xs : List Char} (cfg : Config) (st : WrapState)
    (seq : List Char) (w : Nat) (h : HoldsIn xs st) :
    HoldsIn xs (stepText cfg st seq w) := by
  simp only [stepText]
  have h1 : HoldsIn xs (if (st.curWidth : Int) > cfg.limit then addNewline st else st) := by
    split
    · exact holds_addNewline st h
    · exact h
  set stA := if (st.curWidth : Int) > cfg.limit then addNewline st else st with hA
  have h2 : HoldsIn xs (if (stA.wordLen : Int) + w ≥ cfg.limit then addWord stA else stA) := by
    split
    · exact holds_addWord stA h1
    · exact h1
  set stB := if (stA.wordLen : Int) + w ≥ cfg.limit then addWord stA else stA with hB
  have h3 : HoldsIn xs { stB with word := stB.word ++ seq, wordLen := stB.wordLen + w } := by
    rcases h2 with h2 | h2
    · exact Or.inl h2
    · exact Or.inr (seqIn_mono_r _ h2)
  split
  · exact holds_addNewline _ h3
  · exact h3

theorem holds_processToken {xs : List Char} (cfg : Config) (t : Token)
    (st : WrapState) (h : HoldsIn xs st) : HoldsIn xs (processToken cfg st t) := by
  rcases t with ⟨seq, w, k⟩
  by_cases hw : w = 0
  · subst hw
    cases k with
    | sgr ps =>
      simp only [processToken, reduceIte]
      rcases h with h | h
      · exact Or.inl h
      · exact Or.inr (seqIn_mono_r _ h)
    | osc8 ps url =>
      simp only [processToken, reduceIte]
      rcases h with h | h
      · exact Or.inl h
      · exact Or.inr (seqIn_mono_r _ h)
    | plain =>
      simp only [processToken, reduceIte]
      split
      · have h1 : HoldsIn xs
            (if st.wordLen = 0 then
              if (st.curWidth : Int) + st.space.length > cfg.limit then
                { st with curWidth := 0, space := [] }
              else
                { st with buf := st.buf ++ st.space, space := [] }
            else st) := by
          split
          · split
            · rcases h with h | h
              · exact Or.inl h
              · exact Or.inr h
            · rcases h with h | h
              · exact Or.inl (seqIn_mono_r _ h)
              · exact Or.inr h
          · exact h
        rcases holds_addNewline _ (holds_addWord _ h1) with h2 | h2
        · exact Or.inl h2
        · exact Or.inr (seqIn_mono_r _ h2)
      · rcases h with h | h
        · exact Or.inl h
        · exact Or.inr (seqIn_mono_r _ h)
  · simp only [processToken]
    rw [if_neg hw]
    split
    · split
      · rcases holds_addWord st h with h1 | h1
        · exact Or.inl h1
        · exact Or.inr h1
      · exact holds_addWord st h
    · split
      · exact holds_addBreak cfg st _ w h
      · split
        · split
          · exact holds_addBreak cfg st _ w h
          · exact holds_stepText cfg st _ w h
        · exact holds_stepText cfg st _ w h

theorem holds_wrapLoop {xs : List Char} (cfg : Config) (ts : List Token) :
    ∀ st : WrapState, HoldsIn xs st → HoldsIn xs (wrapLoop cfg st ts) := by
  induction ts with
  | nil => exact fun st h => h
  | cons a l ih =>
    intro st h
    exact ih _ (holds_processToken cfg a st h)

theorem ctrl_word_establish (cfg : Config) (st : WrapState) (t : Token)
    (hw : t.width = 0) : SeqIn t.seq (processToken cfg st t).word := by
  rcases t with ⟨seq, w, k⟩
  simp only at hw
  subst hw
  cases k with
  | sgr ps =>
    simp only [processToken, reduceIte]
    exact seqIn_suffix _ _
  | osc8 ps url =>
    simp only [processToken, reduceIte]
    exact seqIn_suffix _ _
  | plain =>
    simp only [processToken, reduceIte]
    exact seqIn_suffix _ _

theorem mem_loop_holds (cfg : Config) (t : Token) (hw : t.width = 0) :
    ∀ (ts : List Token) (st : WrapState), t ∈ ts →
      HoldsIn t.seq (wrapLoop cfg st ts) := by
  intro ts
  induction ts with
  | nil => intro st hmem; exact absurd hmem (List.not_mem_nil t)
  | cons a l ih =>
    intro st hmem
    rcases List.mem_cons.mp hmem with rfl | hmem
    · exact holds_wrapLoop cfg l _ (Or.inr (ctrl_word_establish cfg st t hw))
    · exact ih _ hmem

theorem holds_finalize {xs : List Char} (cfg : Config) (st : WrapState)
    (h : HoldsIn xs st) : SeqIn xs (finalize cfg st).buf := by
  simp only [finalize]
  refine seqIn_buf_addWord _ ?_
  split
  · split
    · rcases h with h | h
      · exact Or.inl h
      · exact Or.inr h
    · rcases h with h | h
      · exact Or.inl (seqIn_mono_r _ h)
      · exact Or.inr h
  · exact h

/-! ## Claim theorems -/


/-- C2 (counterexample): the claim says that at a line break with a non-empty
Style active, `Wrap` emits the line break first and the canonical reset after
it.  At the concrete state with active style `[1]` (and empty buffers),
`addNewline` — the only place the wrapper inserts a line break — emits the
reset *before* the `'\n'`, not after it, refuting the claimed order. -/
theorem c2_counterexample :
    (addNewline ⟨[], [], [], 0, 0, ⟨[1]⟩, ⟨[], []⟩⟩).buf
        = ResetStyle ++ ['\n'] ++ Style.Sequence ⟨[1]⟩ ∧
    (addNewline ⟨[], [], [], 0, 0, ⟨[1]⟩, ⟨[], []⟩⟩).buf
        ≠ ['\n'] ++ ResetStyle ++ Style.Sequence ⟨[1]⟩ := by
  constructor
  · decide
  · decide

/-- C2 (amended): whenever the wrapper inserts a line break while a non-empty
Style or Link is active, it emits a canonical reset of the open Style/Link
first, then the line break, then immediately their reapplication sequences,
and the running Style/Link state is unchanged — so the visual attribute/link
state at the start of every wrapped line equals the state active at the point
in the original text where that line begins. -/
theorem c2_reset_break_reapply (st : WrapState) :
    (addNewline st).buf =
      st.buf ++ (if st.link.Empty then [] else ResetHyperlink)
        ++ (if st.style.Empty then [] else ResetStyle)
        ++ ['\n']
        ++ (if st.style.Empty then [] else st.style.Sequence)
        ++ (if st.link.Empty then [] else SetHyperlink st.link.URL st.link.Params) ∧
    (addNewline st).style = st.style ∧
    (addNewline st).link = st.link ∧
    (addNewline st).curWidth = 0 ∧
    (addNewline st).word = st.word := by
  refine ⟨?_, rfl, rfl, rfl, rfl⟩
  rw [addNewline_buf]
  unfold breakSeq
  simp

/-- C3 (counterexample): the claim says that when
line width + word width + breakpoint width is not below the limit, the word is
flushed as-is and a fresh word starts with the breakpoint as its first glyph;
and that otherwise the breakpoint is appended to the current word.  With
limit 5, pending word `"abcd"` (width 4) and a hyphen of width 1, the code
instead appends the hyphen to the *existing* word (`"abcd-"`) and flushes
nothing; and in the fitting case (word `"ab"`) the word is flushed and the
hyphen is written directly to the line, not appended to the word. -/
theorem c3_counterexample :
    ((addBreak ⟨5, false, []⟩ ⟨[], ['a','b','c','d'], [], 0, 4, ⟨[]⟩, ⟨[], []⟩⟩ ['-'] 1).word
        = ['a','b','c','d','-'] ∧
     (addBreak ⟨5, false, []⟩ ⟨[], ['a','b','c','d'], [], 0, 4, ⟨[]⟩, ⟨[], []⟩⟩ ['-'] 1).buf
        = [] ∧
     (addBreak ⟨5, false, []⟩ ⟨[], ['a','b','c','d'], [], 0, 4, ⟨[]⟩, ⟨[], []⟩⟩ ['-'] 1).word
        ≠ ['-']) ∧
    ((addBreak ⟨5, false, []⟩ ⟨[], ['a','b'], [], 0, 2, ⟨[]⟩, ⟨[], []⟩⟩ ['-'] 1).word = [] ∧
     (addBreak ⟨5, false, []⟩ ⟨[], ['a','b'], [], 0, 2, ⟨[]⟩, ⟨[], []⟩⟩ ['-'] 1).buf
        = ['a','b','-']) := by
  refine ⟨⟨?_, ?_, ?_⟩, ?_, ?_⟩ <;> decide

/-- C3 (amended): a hyphen is always dispatched to `addBreak` regardless of
the configured breakpoint set; `addBreak` first flushes the pending space;
then, if line width + word width + breakpoint width < limit, the word is
flushed and the breakpoint is written directly to the line (staying attached
to the end of that line after the word); otherwise the breakpoint is appended
to the current word as its last glyph and the word is not flushed. -/
theorem c3_breakpoint_handling (cfg : Config) (st : WrapState) (seq : List Char)
    (w : Nat) (k : CtrlKind) :
    (w ≠ 0 → processToken cfg st ⟨['-'], w, k⟩ = addBreak cfg st ['-'] w) ∧
    ((addSpace st).buf = st.buf ++ st.space) ∧
    (((addSpace st).curWidth : Int) + (addSpace st).wordLen + w < cfg.limit →
        (addBreak cfg st seq w).buf = (addWord (addSpace st)).buf ++ seq ∧
        (addBreak cfg st seq w).word = [] ∧
        (addBreak cfg st seq w).curWidth = (addWord (addSpace st)).curWidth + w) ∧
    (((addSpace st).curWidth : Int) + (addSpace st).wordLen + w ≥ cfg.limit →
        (addBreak cfg st seq w).word = st.word ++ seq ∧
        (addBreak cfg st seq w).wordLen = st.wordLen + w ∧
        (addBreak cfg st seq w).buf = st.buf ++ st.space) := by
  refine ⟨?_, rfl, ?_, ?_⟩
  · intro hw
    unfold processToken
    rw [if_neg hw]
    have hsp : isSpaceChar '-' = false := by decide
    simp [hsp]
  · intro hlt
    unfold addBreak
    rw [if_neg (by omega)]
    exact ⟨rfl, addWord_word _, rfl⟩
  · intro hge
    unfold addBreak
    rw [if_pos hge]
    exact ⟨rfl, rfl, rfl⟩

set_option maxRecDepth 10000 in
/-- C4 (code bug evidence): re-wrapping `Wrap("hello world", 5, "")` at the
same limit does not preserve the line boundaries — each newline inserted by
the first pass is doubled by the second pass, because the `'\n'` token is both
replayed by `addNewline` and retained verbatim in the word buffer. -/
theorem c4_rewrap_changes_boundaries :
    Wrap "hello world" 5 "" = "hello\nworld" ∧
    Wrap (Wrap "hello world" 5 "") 5 "" = "hello\n\nworld" ∧
    Wrap (Wrap "hello world" 5 "") 5 "" ≠ Wrap "hello world" 5 "" := by
  refine ⟨?_, ?_, ?_⟩ <;> decide

/-- C6: for every string, every breakpoint set and every limit at most 0,
`Wrap` returns the input unchanged (documented no-op pass-through). -/
theorem c6_nonpositive_limit_passthrough (s : String) (limit : Int)
    (bp : String) (h : limit ≤ 0) : Wrap s limit bp = s := by
  have h1 : limit < 1 := by omega
  rcases s with ⟨d⟩
  cases d with
  | nil => rfl
  | cons c cs => simp [Wrap, h1]

/-- C6 (witness). -/
theorem c6_witness : (0 : Int) ≤ 0 ∧ Wrap "abc" 0 "x" = "abc" :=
  ⟨by decide, c6_nonpositive_limit_passthrough "abc" 0 "x" (by decide)⟩

/-- C7: `StringWidth` is strictly additive — it equals the sum of `RuneWidth`
over the decoded runes, with the zero-width joiner, variation selectors and
combining marks contributing 0 and no clustering of ZWJ-joined emoji
sequences; in particular woman+ZWJ+cooking has width 4, the
man+ZWJ+man+ZWJ+girl family sequence has width 6, and
white-flag+VS16+ZWJ+rainbow has width 3. -/
theorem c7_stringwidth_additive :
    (∀ s : String, StringWidth s = (s.data.map RuneWidth).sum) ∧
    RuneWidth (Char.ofNat 0x200D) = 0 ∧
    RuneWidth (Char.ofNat 0xFE0F) = 0 ∧
    RuneWidth (Char.ofNat 0x300) = 0 ∧
    StringWidth ⟨[Char.ofNat 0x1F469, Char.ofNat 0x200D, Char.ofNat 0x1F373]⟩ = 4 ∧
    StringWidth ⟨[Char.ofNat 0x1F468, Char.ofNat 0x200D, Char.ofNat 0x1F468,
                  Char.ofNat 0x200D, Char.ofNat 0x1F467]⟩ = 6 ∧
    StringWidth ⟨[Char.ofNat 0x1F3F3, Char.ofNat 0xFE0F, Char.ofNat 0x200D,
                  Char.ofNat 0x1F308]⟩ = 3 := by
  refine ⟨fun s => rfl, ?_, ?_, ?_, ?_, ?_, ?_⟩ <;> decide

/-- C9: the bounds of each damage variant, for every field value: a cell's
bounds is the 1x1 rectangle at (x, y), a rectangle's bounds is the rectangle
itself unchanged, and a screen's bounds is (0, 0, width, height); including
the spec's three concrete examples. -/
theorem c9_damage_bounds (x y w h : Int) (r : Rectangle) :
    CellDamage.Bounds ⟨x, y⟩ = Rect x y 1 1 ∧
    RectDamage.Bounds r = r ∧
    ScreenDamage.Bounds ⟨w, h⟩ = Rect 0 0 w h ∧
    RectDamage.Bounds (Rect 2 3 4 5) = Rect 2 3 4 5 ∧
    CellDamage.Bounds ⟨1, 1⟩ = Rect 1 1 1 1 ∧
    ScreenDamage.Bounds ⟨80, 24⟩ = Rect 0 0 80 24 :=
  ⟨rfl, rfl, rfl, rfl, rfl, rfl⟩

/-- C10 (counterexample): the claim says each input line feed yields two
*consecutive* newline characters in the output.  When a style is active at
the break, the reapplication sequence stands between the two newlines: for
the token stream SGR(1), "a", LF at limit 5 the output contains exactly the
two newlines stemming from the one input LF, and they are not adjacent. -/
theorem c10_counterexample :
    WrapTokens ⟨5, false, []⟩
        [⟨[escChar, '[', '1', 'm'], 0, .sgr [1]⟩, ⟨['a'], 1, .plain⟩,
         ⟨['\n'], 0, .plain⟩]
      = [escChar, '[', '1', 'm', 'a', escChar, '[', 'm', '\n',
         escChar, '[', '1', 'm', '\n'] ∧
    (WrapTokens ⟨5, false, []⟩
        [⟨[escChar, '[', '1', 'm'], 0, .sgr [1]⟩, ⟨['a'], 1, .plain⟩,
         ⟨['\n'], 0, .plain⟩]).count '\n' = 2 ∧
    ¬ SeqIn ['\n', '\n']
        (WrapTokens ⟨5, false, []⟩
          [⟨[escChar, '[', '1', 'm'], 0, .sgr [1]⟩, ⟨['a'], 1, .plain⟩,
           ⟨['\n'], 0, .plain⟩]) := by
  refine ⟨by decide, by decide, ?_⟩
  intro hseq
  have : List.IsInfix ['\n', '\n']
      (WrapTokens ⟨5, false, []⟩
        [⟨[escChar, '[', '1', 'm'], 0, .sgr [1]⟩, ⟨['a'], 1, .plain⟩,
         ⟨['\n'], 0, .plain⟩]) := by
    obtain ⟨u, v, hv⟩ := hseq
    exact ⟨u, v, hv.symm⟩
  revert this
  decide


/-- C1: for every configuration and every decoded token stream, the raw text
of every control/escape token (width 0) produced by the decoder appears
contiguously — not truncated, and not broken across an inserted line
boundary — in the output of the wrapper. -/
theorem c1_escape_sequences_intact (cfg : Config) (ts : List Token) (t : Token)
    (hmem : t ∈ ts) (hw : t.width = 0) : SeqIn t.seq (WrapTokens cfg ts) := by
  unfold WrapTokens
  exact holds_finalize cfg _ (mem_loop_holds cfg t hw ts initState hmem)

/-- C1 (witness). -/
theorem c1_witness :
    (⟨[escChar, '[', 'm'], 0, .sgr [0]⟩ : Token) ∈
        ([⟨[escChar, '[', 'm'], 0, .sgr [0]⟩, ⟨['a'], 1, .plain⟩] : List Token) ∧
    SeqIn [escChar, '[', 'm']
      (WrapTokens ⟨5, false, []⟩
        [⟨[escChar, '[', 'm'], 0, .sgr [0]⟩, ⟨['a'], 1, .plain⟩]) :=
  ⟨by decide,
   c1_escape_sequences_intact ⟨5, false, []⟩
     [⟨[escChar, '[', 'm'], 0, .sgr [0]⟩, ⟨['a'], 1, .plain⟩]
     ⟨[escChar, '[', 'm'], 0, .sgr [0]⟩ (by decide) rfl⟩

/-- C3 (witness). -/
theorem c3_witness :
    (1 : Nat) ≠ 0 ∧
    processToken ⟨5, false, []⟩ ⟨[], ['a', 'b'], [], 0, 2, ⟨[]⟩, ⟨[], []⟩⟩
        ⟨['-'], 1, .plain⟩
      = addBreak ⟨5, false, []⟩ ⟨[], ['a', 'b'], [], 0, 2, ⟨[]⟩, ⟨[], []⟩⟩ ['-'] 1 :=
  ⟨by decide,
   (c3_breakpoint_handling ⟨5, false, []⟩ ⟨[], ['a', 'b'], [], 0, 2, ⟨[]⟩, ⟨[], []⟩⟩
       ['-'] 1 .plain).1 (by decide)⟩

set_option maxRecDepth 4000 in
/-- C5: processing an ordinary text token: if the token's width together with
the current word reaches or exceeds the limit (would overflow it), the word is
flushed to the output — a hard mid-word break, the old word appearing intact
in the output buffer — before accumulation continues with the token as the
fresh word; otherwise the token and its width are appended to the current
word; and at least one line break is emitted during the step exactly when the
total projected line width (line width + word width + pending space, plus the
token) exceeds the limit.  In particular
`Wrap("hello world", 5, "")` = `"hello\nworld"`. -/
theorem c5_ordinary_text_token (cfg : Config) (st : WrapState) (seq : List Char)
    (w : Nat) :
    ((st.wordLen : Int) + w ≥ cfg.limit →
        (stepText cfg st seq w).word = seq ∧
        SeqIn st.word (stepText cfg st seq w).buf) ∧
    ((st.wordLen : Int) + w < cfg.limit →
        (stepText cfg st seq w).word = st.word ++ seq ∧
        (stepText cfg st seq w).wordLen = st.wordLen + w) ∧
    stepText cfg st seq w = (stepTextB cfg st seq w).1 ∧
    (0 < (stepTextB cfg st seq w).2 ↔
        (st.curWidth : Int) + st.wordLen + st.space.length + w > cfg.limit) ∧
    Wrap "hello world" 5 "" = "hello\nworld" :=
  ⟨fun h => stepText_word_flush cfg st seq w h,
   fun h => stepText_word_append cfg st seq w h,
   stepText_eq_fst cfg st seq w,
   stepTextB_breaks_iff cfg st seq w,
   by decide⟩

/-- C5 (witness). -/
theorem c5_witness :
    ((((⟨[], ['a', 'b', 'c', 'd'], [], 0, 4, ⟨[]⟩, ⟨[], []⟩⟩ : WrapState)).wordLen : Int)
        + 1 ≥ (5 : Int)) ∧
    (stepText ⟨5, false, []⟩ ⟨[], ['a', 'b', 'c', 'd'], [], 0, 4, ⟨[]⟩, ⟨[], []⟩⟩
        ['x'] 1).word = ['x'] :=
  ⟨by decide,
   ((c5_ordinary_text_token ⟨5, false, []⟩
       ⟨[], ['a', 'b', 'c', 'd'], [], 0, 4, ⟨[]⟩, ⟨[], []⟩⟩ ['x'] 1).1
     (by decide)).1⟩

/-- C8: at a line-feed token when no word is pending, and again after the
input stream is exhausted, `Wrap` applies the same whitespace-retention
decision (`retainSpace`): if the accumulated line width plus the pending
space width exceeds the limit, the pending space is discarded and the line
width reset to 0; otherwise the pending space is kept (written to the
output); any remaining word is then flushed. -/
theorem c8_whitespace_retention (cfg : Config) (st : WrapState)
    (h : st.wordLen = 0) :
    finalize cfg st = addWord (retainSpace cfg st) ∧
    processToken cfg st ⟨['\n'], 0, .plain⟩ =
      { addNewline (addWord (retainSpace cfg st)) with
          word := (addNewline (addWord (retainSpace cfg st))).word ++ ['\n'] } ∧
    (((st.curWidth : Int) + st.space.length > cfg.limit →
        retainSpace cfg st = { st with curWidth := 0, space := [] }) ∧
     ((st.curWidth : Int) + st.space.length ≤ cfg.limit →
        retainSpace cfg st = { st with buf := st.buf ++ st.space, space := [] })) := by
  refine ⟨?_, ?_, ?_, ?_⟩
  · simp only [finalize, retainSpace, h, if_pos]
  · simp only [processToken, retainSpace, h, reduceIte]
  · intro hgt
    unfold retainSpace
    rw [if_pos hgt]
  · intro hle
    unfold retainSpace
    rw [if_neg (by omega)]

/-- C8 (witness). -/
theorem c8_witness :
    ((⟨['h'], [], [' '], 1, 0, ⟨[]⟩, ⟨[], []⟩⟩ : WrapState)).wordLen = 0 ∧
    finalize ⟨5, false, []⟩ ⟨['h'], [], [' '], 1, 0, ⟨[]⟩, ⟨[], []⟩⟩
      = addWord (retainSpace ⟨5, false, []⟩ ⟨['h'], [], [' '], 1, 0, ⟨[]⟩, ⟨[], []⟩⟩) :=
  ⟨rfl, (c8_whitespace_retention ⟨5, false, []⟩
     ⟨['h'], [], [' '], 1, 0, ⟨[]⟩, ⟨[], []⟩⟩ rfl).1⟩

/-- C10 (amended): every line-feed token is, in addition to triggering the
emitted line break, appended verbatim to the (freshly flushed) word buffer —
so processing an LF always leaves the word buffer holding exactly `'\n'`,
which is later flushed to the output, and each input line feed yields two
newline characters in the output (consecutive when no style or link is active
at the break); in particular `Wrap("\n", limit, "")` = `"\n\n"` for every
limit at least 1. -/
theorem c10_linefeed_doubled (cfg : Config) (st : WrapState) (limit : Int)
    (h : 1 ≤ limit) :
    (processToken cfg st ⟨['\n'], 0, .plain⟩).word = ['\n'] ∧
    Wrap "\n" limit "" = "\n\n" :=
  ⟨lf_word cfg st, wrap_lf limit h⟩

/-- C10 (witness). -/
theorem c10_witness :
    (1 : Int) ≤ 5 ∧ Wrap "\n" 5 "" = "\n\n" :=
  ⟨by decide, (c10_linefeed_doubled ⟨5, false, []⟩ initState 5 (by decide)).2⟩

end Spec2Proof
